import Mathlib

/-!
A verification development for the pore-network topology engine of OpenPNM
(`OpenPNM/Network/__GenericNetwork__.py`).  The network data model and the
graph-theory / mutation methods of `GenericNetwork` are shallowly embedded as
executable Lean definitions, and the specified properties are settled as
theorems about those definitions.

Modelling conventions:
* numpy arrays become Lean lists; `a[mask]` boolean selection becomes
  `maskSel`; `sp.unique` / `sp.bincount` filters become `spUnique`,
  `bincountEq1`, `bincountGt1` (sorted ascending, as numpy returns them).
* The property store (`dict` in the source, one array per namespaced key)
  becomes an association list keyed by `(Elem, String)`; the four canonical
  arrays `pore.coords`, `throat.conns`, `pore.all`, `throat.all` are fields of
  `Network` (`pore.all` / `throat.all` are all-`true` length markers, exactly
  as the source keeps them; `num_pores` / `num_throats` read their lengths).
* Float arrays are modelled exactly (`Option ℚ`, with `none` standing for the
  NaN fill value): the methods under study only create, copy, select and drop
  float entries, never do float arithmetic on them.
* The adjacency / incidence sparse-matrix caches are semantically transparent
  (they are rebuilt from `throat.conns` whenever absent), so the row slices
  used by the neighbor queries are modelled as pure recomputations
  (`adjacencyRow`, `incidenceRow`); a `lil` row of the symmetric ones-weighted
  matrix is the ascending list of distinct columns holding a stored entry.
* The guards raising on attached Geometry/Phase objects precede every other
  effect in `extend` / `trim` / `clone`; all properties below concern networks
  without attachments, so those guards are elided from the embedding.
-/

namespace OpenPNM

/-- Element namespace of a property key: `pore.*` or `throat.*` arrays. -/
inductive Elem
| pore
| throat
deriving DecidableEq

/-- A stored property array.  numpy `bool`, integer and float dtypes are the
ones the mutation methods distinguish; a float entry `none` models NaN. -/
inductive PVal
| bools (l : List Bool)
| ints (l : List Int)
| floats (l : List (Option ℚ))
deriving DecidableEq

/-- Length of a stored property array. -/
def PVal.plen : PVal → Nat
| .bools l => l.length
| .ints l => l.length
| .floats l => l.length

/-- The network container: the four canonical arrays as fields plus the
remaining named property arrays as an association list. -/
structure Network where
  coords : List (ℚ × ℚ × ℚ)
  conns : List (Nat × Nat)
  poreAll : List Bool
  throatAll : List Bool
  props : List ((Elem × String) × PVal)
deriving DecidableEq

/-- `num_pores()`: the length of `pore.all`. -/
def Network.Np (net : Network) : Nat := net.poreAll.length

/-- `num_throats()`: the length of `throat.all`. -/
def Network.Nt (net : Network) : Nat := net.throatAll.length

/-- Executable well-formedness check for a network: array lengths agree with
`Np`/`Nt`, the `all` labels are all-true, `throat.conns` entries are in range,
and property keys are distinct. -/
def Network.validb (net : Network) : Bool :=
  (net.coords.length == net.Np) &&
  (net.conns.length == net.Nt) &&
  net.poreAll.all (fun b => b) &&
  net.throatAll.all (fun b => b) &&
  net.conns.all (fun c => decide (c.1 < net.Np) && decide (c.2 < net.Np)) &&
  net.props.all (fun kv =>
    match kv.1.1 with
    | .pore => kv.2.plen == net.Np
    | .throat => kv.2.plen == net.Nt) &&
  decide ((net.props.map (fun kv => kv.1)).Nodup)

/-- A valid network (the data-model invariants of the spec). -/
def Network.Valid (net : Network) : Prop := net.validb = true

instance (net : Network) : Decidable net.Valid :=
  inferInstanceAs (Decidable (net.validb = true))

/-- numpy boolean-mask selection `a[mask]` (mask and array of equal length). -/
def maskSel {α : Type} (l : List α) (mask : List Bool) : List α :=
  ((l.zip mask).filter (fun p => p.2)).map (fun p => p.1)

/-- Property-store lookup by key. -/
def plookup (k : Elem × String) (l : List ((Elem × String) × PVal)) : Option PVal :=
  (l.find? (fun kv => kv.1 == k)).map (fun kv => kv.2)

/-- `Pmap[Pkeep] = arange(sum(Pkeep))`, `-1` elsewhere: the old-to-new index
map built in `trim`, rendered as a single left-to-right pass. -/
def buildPmapAux : Int → List Bool → List Int
| _, [] => []
| k, true :: rest => k :: buildPmapAux (k + 1) rest
| k, false :: rest => -1 :: buildPmapAux k rest

/-- The trim re-index map over a keep mask. -/
def buildPmap (keep : List Bool) : List Int := buildPmapAux 0 keep

/-- Row `p` of the `lil`-format ones-weighted symmetric adjacency matrix built
by `create_adjacency_matrix` (entries `(a,b)` and `(b,a)` for every throat
`(a,b)`; `lil` rows list the distinct stored columns in ascending order). -/
def adjacencyRow (net : Network) (p : Nat) : List Nat :=
  (List.range net.Np).filter (fun q =>
    net.conns.any (fun c => (c.1 == p && c.2 == q) || (c.2 == p && c.1 == q)))

/-- Row `p` of the `lil`-format ones-weighted incidence matrix built by
`create_incidence_matrix`: the throats having `p` as an endpoint, ascending. -/
def incidenceRow (net : Network) (p : Nat) : List Nat :=
  (net.conns.enum.filter (fun tc => tc.2.1 == p || tc.2.2 == p)).map (fun tc => tc.1)

/-- Largest value of a list of naturals (0 for the empty list). -/
def listMax (l : List Nat) : Nat := l.foldr Nat.max 0

/-- `sp.unique(l)`: the distinct members of `l` in ascending order. -/
def spUnique (l : List Nat) : List Nat :=
  (List.range (listMax l + 1)).filter (fun v => l.contains v)

/-- `sp.unique(sp.where(sp.bincount(l)==1)[0])`: values occurring exactly once. -/
def bincountEq1 (l : List Nat) : List Nat :=
  (List.range (listMax l + 1)).filter (fun v => l.count v == 1)

/-- `sp.unique(sp.where(sp.bincount(l)>1)[0])`: values occurring more than once. -/
def bincountGt1 (l : List Nat) : List Nat :=
  (List.range (listMax l + 1)).filter (fun v => 1 < l.count v)

/-- The three neighbor-query set modes. -/
inductive NMode
| union
| intersection
| not_intersection
deriving DecidableEq

/-- Result of a neighbor query: the bare Python list `[]` returned when every
row is empty, a flat 1-D array, or one sub-array per input element. -/
inductive QRes
| empty
| flat (l : List Nat)
| nested (ls : List (List Nat))
deriving DecidableEq

/-- View of a query result as a flat list (`.empty` reads as the empty list). -/
def QRes.toFlat : QRes → List Nat
| .flat l => l
| _ => []

/-- `find_neighbor_pores`: adjacency rows of the input pores; all-empty rows
short-circuit to the bare `[]`; flattening joins the nonempty rows, appends
the input pores, applies the mode filter and optionally drops the inputs. -/
def find_neighbor_pores (net : Network) (pores : List Nat) (mode : NMode)
    (flatten : Bool) (excl_self : Bool) : QRes :=
  let rows := pores.map (adjacencyRow net)
  if rows.all (fun r => r.isEmpty) then .empty
  else if flatten then
    let l := (rows.filter (fun r => !r.isEmpty)).flatten ++ pores
    let l2 := match mode with
      | .not_intersection => bincountEq1 l
      | .union => spUnique l
      | .intersection => bincountGt1 l
    let l3 := if excl_self then l2.filter (fun x => !(pores.contains x)) else l2
    .flat l3
  else .nested rows

/-- `find_neighbor_throats`: same shape as `find_neighbor_pores` over incidence
rows, without the input append and without the self-exclusion step. -/
def find_neighbor_throats (net : Network) (pores : List Nat) (mode : NMode)
    (flatten : Bool) : QRes :=
  let rows := pores.map (incidenceRow net)
  if rows.all (fun r => r.isEmpty) then .empty
  else if flatten then
    let l := (rows.filter (fun r => !r.isEmpty)).flatten
    let l2 := match mode with
      | .not_intersection => bincountEq1 l
      | .union => spUnique l
      | .intersection => bincountGt1 l
    .flat l2
  else .nested rows

/-- `self.pores(labels=lab)`: indices of pores whose boolean label array holds
`true` (the claims under study always look up an existing boolean label). -/
def poresWithLabel (net : Network) (lab : String) : List Nat :=
  match plookup (Elem.pore, lab) net.props with
  | some (PVal.bools m) => (List.range net.Np).filter (fun p => m.getD p false)
  | _ => []

/-- `find_interface_throats`: `none` models the uncaught `TypeError` raised by
`T1[Tmask]` when `T1` is the bare Python list `[]` (first label set incident
to no throat); otherwise `some (result, errorLogged)`. -/
def find_interface_throats (net : Network) (labels : List String) :
    Option (List Nat × Bool) :=
  if labels.length ≠ 2 then some ([], true)
  else
    let P1 := poresWithLabel net (labels.getD 0 "")
    let P2 := poresWithLabel net (labels.getD 1 "")
    if 0 < (P1.filter (fun p => P2.contains p)).length then some ([], true)
    else
      match find_neighbor_throats net P1 .union true with
      | .flat T1 =>
        let T2 := (find_neighbor_throats net P2 .union true).toFlat
        some (T1.filter (fun t => T2.contains t), false)
      | _ => none

/-- The `(row, col)` index pairs of the coo incidence matrix built by
`create_incidence_matrix` with the default ones weights (`dropzeros` keeps
every throat): `row = conns[:,0] ++ conns[:,1]`, `col = arange(Nt) ++
arange(Nt)` — rendered over `conns.enum`, which coincides with the source's
`throats('all')` columns whenever `len(conns) = Nt` (part of validity). -/
def incidenceRowCol (net : Network) : List (Nat × Nat) :=
  (net.conns.enum.map (fun tc => (tc.2.1, tc.1))) ++
    (net.conns.enum.map (fun tc => (tc.2.2, tc.1)))

/-- Value of the assembled (duplicate-summing) coo incidence matrix at
`(i, t)`: with ones weights this is the number of matching stored triples. -/
def incEntryCount (net : Network) (i t : Nat) : Nat :=
  (incidenceRowCol net).countP (fun rc => rc.1 == i && rc.2 == t)

/-- Rows holding a nonzero entry in incidence-matrix column `t`, ascending. -/
def incColSupport (net : Network) (t : Nat) : List Nat :=
  (List.range net.Np).filter (fun i => incEntryCount net i t != 0)

/-- Boolean-to-weight cast used when a boolean array is passed as matrix data. -/
def b2q (b : Bool) : ℚ := if b then 1 else 0

/-- The throat-selection stage of `create_adjacency_matrix`: `ind = data > 0`
when `dropzeros` else all-true, and `conn = throat.conns[ind]`. -/
def adjacencyKeptConns (net : Network) (data : List ℚ) (dropzeros : Bool) :
    List (Nat × Nat) :=
  let ind : List Bool :=
    if dropzeros then data.map (fun d => decide (0 < d))
    else data.map (fun _ => true)
  maskSel net.conns ind

/-- The throat-activity data `find_clusters` derives from its mask: a length-Nt
mask selects throats directly (`temp[mask] = True`); a length-Np mask is pulled
onto both endpoint columns of `throat.conns` and multiplied; any other length
raises (`none`).  The Nt test comes first in the source. -/
def find_clusters_activeData (net : Network) (mask : List Bool) :
    Option (List ℚ) :=
  if mask.length = net.Nt then
    some (mask.map b2q)
  else if mask.length = net.Np then
    some (net.conns.map (fun c =>
      b2q (mask.getD c.1 false) * b2q (mask.getD c.2 false)))
  else none

/-- The connections entering the adjacency matrix that `find_clusters` hands to
the connected-component labeling (`dropzeros` is `True` there). -/
def find_clusters_keptConns (net : Network) (mask : List Bool) :
    Option (List (Nat × Nat)) :=
  (find_clusters_activeData net mask).map (fun d => adjacencyKeptConns net d true)

/-- How `extend` grows one non-canonical property array to the new length `n`:
booleans are rebuilt as `zeros(n)` with the old entries rewritten (false fill);
every other dtype is rebuilt as `ones(n)*nan` with the old entries assigned
into it, which stores them as floats (integers are cast). -/
def growProp (val : PVal) (n : Nat) : PVal :=
  match val with
  | .bools l => .bools (l ++ List.replicate (n - l.length) false)
  | .ints l => .floats (l.map (fun (z : Int) => some (z : ℚ)) ++ List.replicate (n - l.length) none)
  | .floats l => .floats (l ++ List.replicate (n - l.length) none)

/-- The property loop at the end of `extend`: keys whose name part is
`coords`, `conns` or `all` are skipped; the rest are grown to the new
`Np` / `Nt` according to their namespace. -/
def extendProps (props : List ((Elem × String) × PVal)) (np2 nt2 : Nat) :
    List ((Elem × String) × PVal) :=
  props.map (fun kv =>
    if kv.1.2 == "coords" || kv.1.2 == "conns" || kv.1.2 == "all" then kv
    else match kv.1.1 with
      | .pore => (kv.1, growProp kv.2 np2)
      | .throat => (kv.1, growProp kv.2 nt2))

/-- `extend(pore_coords, throat_conns)` on well-shaped inputs: new counts from
the input sizes, `all` labels rewritten first, coords/conns stacked when the
corresponding input is nonempty, then every other property grown. -/
def Network.extend (net : Network) (pore_coords : List (ℚ × ℚ × ℚ))
    (throat_conns : List (Nat × Nat)) : Network :=
  let nt2 := net.Nt + throat_conns.length
  let np2 := net.Np + pore_coords.length
  { coords := if pore_coords.isEmpty then net.coords else net.coords ++ pore_coords
    conns := if throat_conns.isEmpty then net.conns else net.conns ++ throat_conns
    poreAll := List.replicate np2 true
    throatAll := List.replicate nt2 true
    props := extendProps net.props np2 nt2 }

/-- `extend` with raw (possibly mis-shaped) rectangular inputs, following the
source's statement order: the new counts come from `int(size/3)` and
`int(size/2)` of the raw inputs, the `all` labels are rewritten *before* the
`vstack` calls, and a `vstack` onto a nonempty 3- resp. 2-column array raises
unless every new row has that width.  `Except.error` carries the state the
in-place object is left in when the exception propagates. -/
def Network.extendRaw (net : Network) (pore_coords : List (List ℚ))
    (throat_conns : List (List Nat)) : Except Network Network :=
  let nt2 := net.Nt + (throat_conns.map List.length).sum / 2
  let np2 := net.Np + (pore_coords.map List.length).sum / 3
  let net1 : Network :=
    { net with poreAll := List.replicate np2 true
               throatAll := List.replicate nt2 true }
  let step2 : Except Network Network :=
    if pore_coords.isEmpty then .ok net1
    else if pore_coords.all (fun r => r.length == 3) then
      .ok { net1 with coords := net1.coords ++
              pore_coords.map (fun r => (r.getD 0 0, r.getD 1 0, r.getD 2 0)) }
    else .error net1
  match step2 with
  | .error e => .error e
  | .ok net2 =>
    let step3 : Except Network Network :=
      if throat_conns.isEmpty then .ok net2
      else if throat_conns.all (fun r => r.length == 2) then
        .ok { net2 with conns := net2.conns ++
                throat_conns.map (fun r => (r.getD 0 0, r.getD 1 0)) }
      else .error net2
    match step3 with
    | .error e => .error e
    | .ok net3 => .ok { net3 with props := extendProps net3.props np2 nt2 }

/-- Row selection `trim` applies to one stored property array. -/
def PVal.sel (val : PVal) (mask : List Bool) : PVal :=
  match val with
  | .bools l => .bools (maskSel l mask)
  | .ints l => .ints (maskSel l mask)
  | .floats l => .floats (maskSel l mask)

/-- The shared tail of `trim` once the keep masks are fixed: remap and select
`throat.conns` through `Pmap`, rewrite the `all` labels to the kept counts,
and select every other property row-wise (keys named `conns` or `all` are
skipped by the loop; `pore.coords` is handled by the loop like any pore
property).  The `Pmap` values of kept endpoints are nonnegative, so the cast
back to natural indices is exact. -/
def trimCore (net : Network) (pkeep tkeep : List Bool) : Network :=
  let pmap := buildPmap pkeep
  let keptConns := maskSel net.conns tkeep
  { coords := maskSel net.coords pkeep
    conns := keptConns.map (fun c =>
      ((pmap.getD c.1 (-1)).toNat, (pmap.getD c.2 (-1)).toNat))
    poreAll := List.replicate (pkeep.count true) true
    throatAll := List.replicate (tkeep.count true) true
    props := net.props.map (fun kv =>
      if kv.1.2 == "conns" || kv.1.2 == "all" then kv
      else match kv.1.1 with
        | .pore => (kv.1, kv.2.sel pkeep)
        | .throat => (kv.1, kv.2.sel tkeep)) }

/-- The `pores=` branch of `trim`: drop the listed pores and every throat
incident to one of them (`find_neighbor_throats`), keep the rest. -/
def Network.trimPores (net : Network) (pores : List Nat) : Network :=
  let pdrop := (List.range net.Np).map (fun p => pores.contains p)
  let pkeep := pdrop.map (fun b => !b)
  let ts := (find_neighbor_throats net pores .union true).toFlat
  let tdrop := (List.range net.Nt).map (fun t => ts.contains t)
  let tkeep := tdrop.map (fun b => !b)
  trimCore net pkeep tkeep

/-- The `throats=` branch of `trim`: drop the listed throats, keep every pore. -/
def Network.trimThroats (net : Network) (throats : List Nat) : Network :=
  let tdrop := (List.range net.Nt).map (fun t => throats.contains t)
  let tkeep := tdrop.map (fun b => !b)
  let pkeep := (List.range net.Np).map (fun _ => true)
  trimCore net pkeep tkeep

/-- `trim(pores=…, throats=…)`: the pores branch wins when nonempty, then the
throats branch; with neither, the method only logs a warning (the returned
flag) and leaves the network untouched. -/
def Network.trim (net : Network) (pores throats : List Nat) : Network × Bool :=
  if !pores.isEmpty then (net.trimPores pores, false)
  else if !throats.isEmpty then (net.trimThroats throats, false)
  else (net, true)

/-- Removing exactly a set of throats and then a set of pores via `trim`
(the added throats first, so that the added pores are left isolated). -/
def removeAdded (net : Network) (ps ts : List Nat) : Network :=
  ((net.trim [] ts).1.trim ps []).1

/-- The round trip of the spec: `extend` with new coords/conns, then `trim`
removing exactly the added elements (added throat indices, then added pore
indices). -/
def extendTrimRoundTrip (net : Network) (pore_coords : List (ℚ × ℚ × ℚ))
    (throat_conns : List (Nat × Nat)) : Network :=
  removeAdded (net.extend pore_coords throat_conns)
    (List.range' net.Np pore_coords.length)
    (List.range' net.Nt throat_conns.length)

/-- What one round trip does to a stored property array: booleans and floats
come back bit-for-bit, integer arrays come back as float arrays holding the
same values. -/
def PVal.floatified : PVal → PVal
| .bools l => .bools l
| .ints l => .floats (l.map (fun (z : Int) => some (z : ℚ)))
| .floats l => .floats l

/-- Spec-side characterization of trim's dense re-indexing: the new index of a
surviving pore `p` is the number of surviving pores before it. -/
def denseIndex (P : List Nat) (p : Nat) : Nat :=
  ((List.range p).filter (fun q => !(P.contains q))).length

/-- The 4-pore path network of the spec scenarios: throats
`[(0,1),(1,2),(2,3)]`. -/
def pathNet : Network :=
  { coords := [(0, 0, 0), (1, 0, 0), (2, 0, 0), (3, 0, 0)]
    conns := [(0, 1), (1, 2), (2, 3)]
    poreAll := [true, true, true, true]
    throatAll := [true, true, true]
    props := [] }

/-- A one-pore network whose single throat is a self-loop `(0,0)`: every
`throat.conns` entry is within `[0, Np)`. -/
def selfLoopNet : Network :=
  { coords := [(0, 0, 0)]
    conns := [(0, 0)]
    poreAll := [true]
    throatAll := [true]
    props := [] }

/-- A triangle network with `Np = Nt = 3`. -/
def triNet : Network :=
  { coords := [(0, 0, 0), (1, 0, 0), (0, 1, 0)]
    conns := [(0, 1), (1, 2), (0, 2)]
    poreAll := [true, true, true]
    throatAll := [true, true, true]
    props := [] }

/-- Two isolated pores, no throats. -/
def isoNet : Network :=
  { coords := [(0, 0, 0), (1, 0, 0)]
    conns := []
    poreAll := [true, true]
    throatAll := []
    props := [] }

/-- One pore, no throats, one integer-typed pore property. -/
def intPropNet : Network :=
  { coords := [(0, 0, 0)]
    conns := []
    poreAll := [true]
    throatAll := []
    props := [((Elem.pore, "z"), PVal.ints [5])] }

/-- A valid network carrying a throat property whose *name part* is `coords`
(settable through the store: only the length is checked on write). -/
def oddNameNet : Network :=
  { coords := [(0, 0, 0), (1, 0, 0)]
    conns := [(0, 1)]
    poreAll := [true, true]
    throatAll := [true]
    props := [((Elem.throat, "coords"), PVal.ints [7])] }

/-- Three pores, one throat `(1,2)`; label `a` marks the isolated pore 0 and
label `b` marks pore 1 — disjoint label sets, the first one throat-free. -/
def labNet : Network :=
  { coords := [(0, 0, 0), (1, 0, 0), (2, 0, 0)]
    conns := [(1, 2)]
    poreAll := [true, true, true]
    throatAll := [true]
    props := [((Elem.pore, "a"), PVal.bools [true, false, false]),
              ((Elem.pore, "b"), PVal.bools [false, true, false])] }

/-- Two pores joined by one throat (base case for the mis-shaped `extend`). -/
def twoPoreNet : Network :=
  { coords := [(0, 0, 0), (1, 0, 0)]
    conns := [(0, 1)]
    poreAll := [true, true]
    throatAll := [true]
    props := [] }

/-- Two pores joined by one throat; label `a` marks pore 0, label `b` pore 1. -/
def lab2Net : Network :=
  { coords := [(0, 0, 0), (1, 0, 0)]
    conns := [(0, 1)]
    poreAll := [true, true]
    throatAll := [true]
    props := [((Elem.pore, "a"), PVal.bools [true, false]),
              ((Elem.pore, "b"), PVal.bools [false, true])] }

theorem le_listMax {l : List Nat} {v : Nat} (h : v ∈ l) : v ≤ listMax l := by
  induction l with
  | nil => cases h
  | cons a l ih =>
    rcases List.mem_cons.mp h with rfl | h2
    · exact Nat.le_max_left _ _
    · exact Nat.le_trans (ih h2) (Nat.le_max_right _ _)

theorem mem_spUnique {l : List Nat} {v : Nat} : v ∈ spUnique l ↔ v ∈ l := by
  simp only [spUnique, List.mem_filter, List.mem_range]
  constructor
  · intro h
    simpa using h.2
  · intro h
    exact ⟨Nat.lt_succ_of_le (le_listMax h), by simpa using h⟩

theorem mem_bincountGt1 {l : List Nat} {v : Nat} :
    v ∈ bincountGt1 l ↔ 1 < l.count v := by
  simp only [bincountGt1, List.mem_filter, List.mem_range, decide_eq_true_eq]
  constructor
  · intro h
    exact h.2
  · intro h
    refine ⟨Nat.lt_succ_of_le (le_listMax ?_), h⟩
    exact List.count_pos_iff.mp (Nat.lt_trans Nat.zero_lt_one h)

theorem mem_bincountEq1 {l : List Nat} {v : Nat} :
    v ∈ bincountEq1 l ↔ l.count v = 1 := by
  simp only [bincountEq1, List.mem_filter, List.mem_range, beq_iff_eq]
  constructor
  · intro h
    exact h.2
  · intro h
    refine ⟨Nat.lt_succ_of_le (le_listMax ?_), h⟩
    exact List.count_pos_iff.mp (by omega)

theorem mem_flatten_nonemptyRows {rows : List (List Nat)} {x : Nat} :
    x ∈ (rows.filter (fun r => !r.isEmpty)).flatten ↔ ∃ r ∈ rows, x ∈ r := by
  simp only [List.mem_flatten, List.mem_filter]
  constructor
  · rintro ⟨r, ⟨hr, -⟩, hx⟩
    exact ⟨r, hr, hx⟩
  · rintro ⟨r, hr, hx⟩
    refine ⟨r, ⟨hr, ?_⟩, hx⟩
    cases r with
    | nil => cases hx
    | cons a r => rfl

/-- **C7**: for every network and every input pore set with at least two
elements, the flattened `intersection`-mode neighbor set is contained in the
flattened `union`-mode neighbor set, at either `excl_self` setting. -/
theorem neighbor_pores_intersection_subset_union (net : Network)
    (pores : List Nat) (excl_self : Bool) (hlen : 2 ≤ pores.length) :
    ∀ x, x ∈ (find_neighbor_pores net pores .intersection true excl_self).toFlat →
      x ∈ (find_neighbor_pores net pores .union true excl_self).toFlat := by
  intro x hx
  cases hall : (pores.map (adjacencyRow net)).all (fun r => r.isEmpty) with
  | true =>
    simp [find_neighbor_pores, hall, QRes.toFlat] at hx
  | false =>
    simp only [find_neighbor_pores, hall] at hx ⊢
    simp only [Bool.false_eq_true, if_false, if_true, QRes.toFlat] at hx ⊢
    cases excl_self with
    | true =>
      simp only [if_true, List.mem_filter] at hx ⊢
      refine ⟨?_, hx.2⟩
      have hc := mem_bincountGt1.mp hx.1
      exact mem_spUnique.mpr (List.count_pos_iff.mp (by omega))
    | false =>
      simp only [Bool.false_eq_true, if_false] at hx ⊢
      have hc := mem_bincountGt1.mp hx
      exact mem_spUnique.mpr (List.count_pos_iff.mp (by omega))

/-- Witness for C7 on the 4-pore path network with inputs `[0, 2]`. -/
theorem neighbor_pores_intersection_subset_union_witness :
    2 ≤ ([0, 2] : List Nat).length ∧
      1 ∈ (find_neighbor_pores pathNet [0, 2] .union true true).toFlat :=
  ⟨by decide,
   neighbor_pores_intersection_subset_union pathNet [0, 2] true (by decide) 1
     (by decide)⟩

/-- **C10**: when every input pore has an empty adjacency row the query
returns the bare empty result whatever `flatten` is; when some input pore has
a neighbor and `flatten=False`, it returns one row per input pore. -/
theorem neighbor_pores_all_rows_empty (net : Network) (pores : List Nat)
    (mode : NMode) (excl_self : Bool) :
    ((∀ p ∈ pores, adjacencyRow net p = []) →
      ∀ flatten : Bool, find_neighbor_pores net pores mode flatten excl_self = .empty)
    ∧ ((∃ p ∈ pores, adjacencyRow net p ≠ []) →
      find_neighbor_pores net pores mode false excl_self =
        .nested (pores.map (adjacencyRow net))) := by
  constructor
  · intro h flatten
    have hall : (pores.map (adjacencyRow net)).all (fun r => r.isEmpty) = true := by
      simp only [List.all_eq_true, List.mem_map]
      rintro r ⟨p, hp, rfl⟩
      simp [h p hp]
    simp [find_neighbor_pores, hall]
  · rintro ⟨p, hp, hne⟩
    have hall : (pores.map (adjacencyRow net)).all (fun r => r.isEmpty) = false := by
      rw [List.all_eq_false]
      refine ⟨adjacencyRow net p, List.mem_map_of_mem _ hp, ?_⟩
      simpa using hne
    simp [find_neighbor_pores, hall]

/-- Witness for C10: two isolated pores give the bare empty result even
unflattened, while a connected input pore gives one row per input. -/
theorem neighbor_pores_all_rows_empty_witness :
    find_neighbor_pores isoNet [0, 1] .union false true = .empty ∧
      find_neighbor_pores pathNet [0] .union false true = .nested [[1]] := by
  constructor
  · exact (neighbor_pores_all_rows_empty isoNet [0, 1] .union true).1 (by decide) false
  · have h := (neighbor_pores_all_rows_empty pathNet [0] .union true).2
      ⟨0, by decide, by decide⟩
    rw [h]
    decide

/-- **C9**: `trim` called with neither pores nor throats logs a warning (the
returned flag) and leaves the network completely unchanged. -/
theorem trim_no_selection_warns_unchanged (net : Network) :
    net.trim [] [] = (net, true) := rfl

theorem all_true_eq_replicate {l : List Bool} (h : ∀ b ∈ l, b = true) :
    l = List.replicate l.length true :=
  List.eq_replicate_iff.mpr ⟨rfl, h⟩

/-- Unpacked form of the validity invariant. -/
theorem valid_unfold {net : Network} (h : net.Valid) :
    net.coords.length = net.Np ∧ net.conns.length = net.Nt ∧
    net.poreAll = List.replicate net.Np true ∧
    net.throatAll = List.replicate net.Nt true ∧
    (∀ c ∈ net.conns, c.1 < net.Np ∧ c.2 < net.Np) ∧
    (∀ kv ∈ net.props, (kv.1.1 = Elem.pore → kv.2.plen = net.Np) ∧
      (kv.1.1 = Elem.throat → kv.2.plen = net.Nt)) ∧
    (net.props.map (fun kv => kv.1)).Nodup := by
  unfold Network.Valid Network.validb at h
  simp only [Bool.and_eq_true, beq_iff_eq, List.all_eq_true, decide_eq_true_eq] at h
  obtain ⟨⟨⟨⟨⟨⟨h1, h2⟩, h3⟩, h4⟩, h5⟩, h6⟩, h7⟩ := h
  refine ⟨h1, h2, ?_, ?_, h5, ?_, h7⟩
  · exact all_true_eq_replicate h3
  · exact all_true_eq_replicate h4
  · intro kv hkv
    have hm := h6 kv hkv
    obtain ⟨⟨e, name⟩, val⟩ := kv
    cases e with
    | pore =>
      constructor
      · intro _
        simpa using hm
      · intro hc
        cases hc
    | throat =>
      constructor
      · intro hc
        cases hc
      · intro _
        simpa using hm

theorem mem_incidenceRowCol {net : Network} {i t : Nat} :
    (i, t) ∈ incidenceRowCol net ↔
      ∃ c, net.conns[t]? = some c ∧ (c.1 = i ∨ c.2 = i) := by
  simp only [incidenceRowCol, List.mem_append, List.mem_map]
  constructor
  · rintro (⟨⟨n, c⟩, hm, he⟩ | ⟨⟨n, c⟩, hm, he⟩)
    · simp only [Prod.mk.injEq] at he
      obtain ⟨he1, he2⟩ := he
      subst he2
      exact ⟨c, List.mk_mem_enum_iff_getElem?.mp hm, Or.inl he1⟩
    · simp only [Prod.mk.injEq] at he
      obtain ⟨he1, he2⟩ := he
      subst he2
      exact ⟨c, List.mk_mem_enum_iff_getElem?.mp hm, Or.inr he1⟩
  · rintro ⟨c, hc, hi | hi⟩
    · exact Or.inl ⟨(t, c), List.mk_mem_enum_iff_getElem?.mpr hc, by simp [hi]⟩
    · exact Or.inr ⟨(t, c), List.mk_mem_enum_iff_getElem?.mpr hc, by simp [hi]⟩

theorem incEntryCount_ne_zero {net : Network} {i t : Nat} :
    incEntryCount net i t ≠ 0 ↔ (i, t) ∈ incidenceRowCol net := by
  unfold incEntryCount
  constructor
  · intro h
    obtain ⟨rc, hm, hp⟩ := List.countP_pos_iff.mp (Nat.pos_of_ne_zero h)
    simp only [Bool.and_eq_true, beq_iff_eq] at hp
    have hrc : rc = (i, t) := Prod.ext hp.1 hp.2
    rwa [hrc] at hm
  · intro hm
    exact Nat.pos_iff_ne_zero.mp (List.countP_pos_iff.mpr ⟨(i, t), hm, by simp⟩)

theorem mem_incColSupport {net : Network} {i t : Nat} :
    i ∈ incColSupport net t ↔
      i < net.Np ∧ ∃ c, net.conns[t]? = some c ∧ (c.1 = i ∨ c.2 = i) := by
  simp only [incColSupport, List.mem_filter, List.mem_range, bne_iff_ne, ne_eq]
  rw [← ne_eq, incEntryCount_ne_zero, mem_incidenceRowCol]

/-- **C1** counterexample: the one-pore network with the single throat
`(0, 0)` has every `throat.conns` entry within `[0, Np)`, yet incidence
column 0 holds a single nonzero entry (of value 2), not two. -/
theorem incidence_column_selfloop_counterexample :
    selfLoopNet.Valid ∧ (incColSupport selfLoopNet 0).length ≠ 2 := by
  constructor
  · decide
  · decide

/-- **C1** (amended): for a valid network and a throat `t` whose two endpoint
pores are distinct, incidence column `t` built by `create_incidence_matrix`
with the default ones weights has exactly two nonzero entries, located at the
rows of the two endpoints of throat `t`. -/
theorem incidence_column_two_entries (net : Network) (t a b : Nat)
    (hv : net.Valid) (ht : net.conns[t]? = some (a, b)) (hab : a ≠ b) :
    (incColSupport net t).length = 2 ∧
      ∀ i, i ∈ incColSupport net t ↔ (i = a ∨ i = b) := by
  obtain ⟨-, -, -, -, hlt, -, -⟩ := valid_unfold hv
  have hmem : (a, b) ∈ net.conns := by
    obtain ⟨hlen, hget⟩ := List.getElem?_eq_some_iff.mp ht
    exact hget ▸ net.conns.getElem_mem hlen
  obtain ⟨ha, hb⟩ := hlt (a, b) hmem
  have hchar : ∀ i, i ∈ incColSupport net t ↔ (i = a ∨ i = b) := by
    intro i
    rw [mem_incColSupport]
    constructor
    · rintro ⟨-, c, hc, hi⟩
      rw [ht] at hc
      cases hc
      rcases hi with hi | hi
      · exact Or.inl hi.symm
      · exact Or.inr hi.symm
    · intro hi
      rcases hi with hi | hi
      · rw [hi]
        exact ⟨ha, (a, b), ht, Or.inl rfl⟩
      · rw [hi]
        exact ⟨hb, (a, b), ht, Or.inr rfl⟩
  refine ⟨?_, hchar⟩
  have hnd : (incColSupport net t).Nodup := (List.nodup_range _).filter _
  have hfs : (incColSupport net t).toFinset = {a, b} := by
    ext i
    simp only [List.mem_toFinset, hchar i, Finset.mem_insert, Finset.mem_singleton]
  have := List.toFinset_card_of_nodup hnd
  rw [hfs] at this
  rw [← this]
  rw [Finset.card_insert_of_not_mem (by simp [hab]), Finset.card_singleton]

/-- Witness for C1 (amended) on throat 0 of the path network. -/
theorem incidence_column_two_entries_witness :
    pathNet.Valid ∧ (incColSupport pathNet 0).length = 2 :=
  ⟨by decide,
   (incidence_column_two_entries pathNet 0 0 1 (by decide) (by decide)
     (by decide)).1⟩

theorem maskSel_map_self {α : Type} (l : List α) (g : α → Bool) :
    maskSel l (l.map g) = l.filter g := by
  induction l with
  | nil => rfl
  | cons a l ih =>
    unfold maskSel at ih ⊢
    simp only [List.map_cons, List.zip_cons_cons, List.filter_cons]
    cases hg : g a
    · simpa [hg] using ih
    · simpa [hg] using congrArg (List.cons a) ih

theorem b2q_mul_pos (x y : Bool) :
    decide (0 < b2q x * b2q y) = (x && y) := by
  cases x <;> cases y <;> norm_num [b2q]

/-- **C5** counterexample: on the triangle network `Np = Nt = 3`, a length-Np
boolean pore mask is consumed by the length-Nt branch (tested first) and read
as a throat mask: with mask `[true, true, false]` the adjacency is built from
throats 0 and 1, not from the single throat whose both endpoints are active. -/
theorem find_clusters_mask_dispatch_counterexample :
    triNet.Valid ∧ ([true, true, false] : List Bool).length = triNet.Np ∧
      find_clusters_keptConns triNet [true, true, false] =
        some [(0, 1), (1, 2)] ∧
      triNet.conns.filter
        (fun c => ([true, true, false] : List Bool).getD c.1 false &&
          ([true, true, false] : List Bool).getD c.2 false) = [(0, 1)] := by
  refine ⟨by decide, by decide, ?_, by decide⟩
  decide

/-- **C5** (amended): for every network with `Np ≠ Nt` and every boolean mask
of length `Np`, the adjacency `find_clusters` hands to connected-component
labeling contains exactly the throats whose BOTH endpoint pores are active in
the mask.  (When `Np = Nt` the mask is interpreted as a throat mask instead,
because the `Nt` branch is tested first.) -/
theorem find_clusters_pore_mask_and_rule (net : Network) (mask : List Bool)
    (hlen : mask.length = net.Np) (hne : net.Np ≠ net.Nt) :
    find_clusters_keptConns net mask =
      some (net.conns.filter
        (fun c => mask.getD c.1 false && mask.getD c.2 false)) := by
  have hnt : ¬ mask.length = net.Nt := by
    rw [hlen]
    exact hne
  have hcomp :
      ((fun d => decide (0 < d)) ∘
        (fun c : Nat × Nat => b2q (mask.getD c.1 false) * b2q (mask.getD c.2 false)))
      = (fun c : Nat × Nat => mask.getD c.1 false && mask.getD c.2 false) := by
    funext c
    exact b2q_mul_pos _ _
  unfold find_clusters_keptConns find_clusters_activeData adjacencyKeptConns
  rw [if_neg hnt, if_pos hlen]
  simp only [Option.map_some', if_true, List.map_map]
  rw [hcomp, maskSel_map_self]

/-- Witness for C5 (amended) on the path network (`Np = 4`, `Nt = 3`) with
pores 0..2 active: the kept throats are those within `{0,1,2}`. -/
theorem find_clusters_pore_mask_and_rule_witness :
    ([true, true, true, false] : List Bool).length = pathNet.Np ∧
      pathNet.Np ≠ pathNet.Nt ∧
      find_clusters_keptConns pathNet [true, true, true, false] =
        some [(0, 1), (1, 2)] := by
  refine ⟨by decide, by decide, ?_⟩
  rw [find_clusters_pore_mask_and_rule pathNet _ (by decide) (by decide)]
  decide

theorem plookup_map_keyPreserving (f : ((Elem × String) × PVal) → PVal)
    (l : List ((Elem × String) × PVal)) (k : Elem × String) :
    plookup k (l.map (fun kv => (kv.1, f kv))) =
      (l.find? (fun kv => kv.1 == k)).map (fun kv => f kv) := by
  induction l with
  | nil => rfl
  | cons kv l ih =>
    unfold plookup at ih ⊢
    simp only [List.map_cons, List.find?_cons]
    cases hk : (kv.1 == k)
    · simpa [hk] using ih
    · simp [hk]

/-- **C8** counterexample: a (valid) network can carry a non-boolean throat
property whose *name part* is `coords`; `extend` skips keys by name part, so
this property is not replaced by a float array (it is left stale entirely). -/
theorem extend_name_filter_counterexample :
    oddNameNet.Valid ∧
      plookup (Elem.throat, "coords") (oddNameNet.extend [] [(1, 0)]).props =
        some (PVal.ints [7]) ∧
      (PVal.ints [7] : PVal) ≠ PVal.floats [some 7, none] := by
  refine ⟨by decide, ?_, by decide⟩
  decide

/-- **C8** (amended): after `extend`, every property whose name part is not
`coords`, `conns` or `all` is grown to the new count of its namespace:
boolean arrays keep their dtype and are extended with `false`; any other
array is replaced by a float-typed array holding the old values cast to float
and NaN for the new entries (`growProp`), so integer element types are lost.
Properties re-using the reserved name parts are skipped by the name filter. -/
theorem extend_grows_properties (net : Network) (pc : List (ℚ × ℚ × ℚ))
    (tc : List (Nat × Nat)) (k : Elem × String) (h1 : k.2 ≠ "coords")
    (h2 : k.2 ≠ "conns") (h3 : k.2 ≠ "all") :
    plookup k (net.extend pc tc).props =
      (plookup k net.props).map (fun v =>
        growProp v (match k.1 with
          | .pore => net.Np + pc.length
          | .throat => net.Nt + tc.length)) := by
  have hE : (net.extend pc tc).props =
      net.props.map (fun kv => (kv.1,
        if kv.1.2 == "coords" || kv.1.2 == "conns" || kv.1.2 == "all" then kv.2
        else match kv.1.1 with
          | .pore => growProp kv.2 (net.Np + pc.length)
          | .throat => growProp kv.2 (net.Nt + tc.length))) := by
    show extendProps net.props _ _ = _
    unfold extendProps
    apply List.map_congr_left
    intro kv _
    split
    · rfl
    · cases kv.1.1 <;> rfl
  rw [hE, plookup_map_keyPreserving]
  unfold plookup
  cases hf : net.props.find? (fun kv => kv.1 == k) with
  | none => rfl
  | some kv =>
    have hk : kv.1 = k := by
      have := List.find?_some hf
      simpa using this
    simp only [Option.map_some']
    have hres : (kv.1.2 == "coords" || kv.1.2 == "conns" || kv.1.2 == "all") = false := by
      rw [hk]
      simp [h1, h2, h3]
    rw [hres]
    simp only [Bool.false_eq_true, if_false]
    rw [hk]
    cases k1 : k.1 <;> rfl

/-- Witness for C8 (amended): the integer pore property of `intPropNet` comes
back float-typed with a NaN tail after one pore is added. -/
theorem extend_grows_properties_witness :
    plookup (Elem.pore, "z") (intPropNet.extend [(1, 1, 1)] []).props =
      some (PVal.floats [some 5, none]) := by
  rw [extend_grows_properties intPropNet [(1, 1, 1)] [] (Elem.pore, "z")
    (by decide) (by decide) (by decide)]
  decide

theorem mem_incidenceRow {net : Network} {p t : Nat} :
    t ∈ incidenceRow net p ↔
      ∃ c, net.conns[t]? = some c ∧ (c.1 = p ∨ c.2 = p) := by
  unfold incidenceRow
  simp only [List.mem_map, List.mem_filter]
  constructor
  · rintro ⟨⟨n, c⟩, ⟨hm, hp⟩, he⟩
    simp only at he
    subst he
    simp only [Bool.or_eq_true, beq_iff_eq] at hp
    exact ⟨c, List.mk_mem_enum_iff_getElem?.mp hm, hp⟩
  · rintro ⟨c, hc, hp⟩
    refine ⟨(t, c), ⟨List.mk_mem_enum_iff_getElem?.mpr hc, ?_⟩, rfl⟩
    simp only [Bool.or_eq_true, beq_iff_eq]
    exact hp

theorem mem_neighbor_throats_union {net : Network} {P : List Nat} {t : Nat} :
    t ∈ (find_neighbor_throats net P .union true).toFlat ↔
      ∃ p ∈ P, t ∈ incidenceRow net p := by
  unfold find_neighbor_throats
  cases hall : (P.map (incidenceRow net)).all (fun r => r.isEmpty)
  · simp only [hall, Bool.false_eq_true, if_false, if_true, QRes.toFlat]
    rw [mem_spUnique, mem_flatten_nonemptyRows]
    constructor
    · rintro ⟨r, hr, ht⟩
      obtain ⟨p, hp, rfl⟩ := List.mem_map.mp hr
      exact ⟨p, hp, ht⟩
    · rintro ⟨p, hp, ht⟩
      exact ⟨incidenceRow net p, List.mem_map_of_mem _ hp, ht⟩
  · simp only [hall, if_true, QRes.toFlat]
    simp only [List.not_mem_nil, false_iff]
    rintro ⟨p, hp, ht⟩
    have hemp := List.all_eq_true.mp hall (incidenceRow net p)
      (List.mem_map_of_mem _ hp)
    rw [List.isEmpty_iff] at hemp
    rw [hemp] at ht
    cases ht

/-- **C6** counterexample: on `labNet` the two labels are given and disjoint,
but the first labeled set `{0}` is incident to no throat, so
`find_neighbor_throats` returns the bare Python list `[]` and the subsequent
`T1[Tmask]` indexing raises a `TypeError` (`none`) instead of returning the
(empty) set of bridging throats. -/
theorem interface_throats_crash_counterexample :
    (["a", "b"] : List String).length = 2 ∧
      ((poresWithLabel labNet "a").filter
        (fun p => (poresWithLabel labNet "b").contains p)).length = 0 ∧
      find_interface_throats labNet ["a", "b"] = none := by
  refine ⟨by decide, by decide, by decide⟩

/-- **C6** (amended): `find_interface_throats` returns the empty result with
an error logged — without raising — when the number of labels is not two or
the labeled sets overlap; otherwise, provided the first labeled set is
incident to at least one throat, it returns (error-free) exactly the throats
with one endpoint in each labeled set.  When the first labeled set touches no
throat the query instead raises a `TypeError` (the `none` case). -/
theorem interface_throats_spec (net : Network) (labels : List String) :
    (labels.length ≠ 2 → find_interface_throats net labels = some ([], true)) ∧
    (∀ la lb, labels = [la, lb] →
      (∃ p, p ∈ poresWithLabel net la ∧ p ∈ poresWithLabel net lb) →
      find_interface_throats net labels = some ([], true)) ∧
    (∀ la lb, labels = [la, lb] →
      (∀ p ∈ poresWithLabel net la, p ∉ poresWithLabel net lb) →
      (∃ p ∈ poresWithLabel net la, incidenceRow net p ≠ []) →
      ∃ res, find_interface_throats net labels = some (res, false) ∧
        ∀ t, t ∈ res ↔ (∃ c, net.conns[t]? = some c ∧
          ((c.1 ∈ poresWithLabel net la ∧ c.2 ∈ poresWithLabel net lb) ∨
           (c.2 ∈ poresWithLabel net la ∧ c.1 ∈ poresWithLabel net lb)))) ∧
    (∀ la lb, labels = [la, lb] →
      (∀ p ∈ poresWithLabel net la, p ∉ poresWithLabel net lb) →
      (∀ p ∈ poresWithLabel net la, incidenceRow net p = []) →
      find_interface_throats net labels = none) := by
  refine ⟨?_, ?_, ?_, ?_⟩
  · intro h
    unfold find_interface_throats
    rw [if_pos h]
  · rintro la lb rfl ⟨p, hpa, hpb⟩
    unfold find_interface_throats
    rw [if_neg (fun h => h rfl)]
    simp only [List.getD_cons_zero, List.getD_cons_succ]
    rw [if_pos]
    rw [List.length_pos_iff_exists_mem]
    refine ⟨p, List.mem_filter.mpr ⟨hpa, ?_⟩⟩
    simpa using hpb
  · rintro la lb rfl hdisj hne
    have hov : ¬ (0 < ((poresWithLabel net la).filter
        (fun p => (poresWithLabel net lb).contains p)).length) := by
      have hnil : (poresWithLabel net la).filter
          (fun p => (poresWithLabel net lb).contains p) = [] := by
        rw [List.filter_eq_nil_iff]
        intro p hp
        simpa using hdisj p hp
      rw [hnil]
      simp
    have hall : ((poresWithLabel net la).map (incidenceRow net)).all
        (fun r => r.isEmpty) = false := by
      obtain ⟨p, hp, hrow⟩ := hne
      rw [List.all_eq_false]
      refine ⟨incidenceRow net p, List.mem_map_of_mem _ hp, ?_⟩
      simpa [List.isEmpty_iff] using hrow
    have hT1 : find_neighbor_throats net (poresWithLabel net la) .union true =
        .flat (spUnique (((poresWithLabel net la).map (incidenceRow net)).filter
          (fun r => !r.isEmpty)).flatten) := by
      unfold find_neighbor_throats
      simp [hall]
    refine ⟨((find_neighbor_throats net (poresWithLabel net la) .union true).toFlat).filter
      (fun t => ((find_neighbor_throats net (poresWithLabel net lb) .union true).toFlat).contains t),
      ?_, ?_⟩
    · unfold find_interface_throats
      rw [if_neg (fun h => h rfl)]
      simp only [List.getD_cons_zero, List.getD_cons_succ]
      rw [if_neg hov, hT1]
      rfl
    · intro t
      rw [List.mem_filter]
      constructor
      · rintro ⟨h1, h2⟩
        rw [mem_neighbor_throats_union] at h1
        have h2a : t ∈ (find_neighbor_throats net (poresWithLabel net lb) .union true).toFlat := by
          simpa using h2
        rw [mem_neighbor_throats_union] at h2a
        obtain ⟨p, hpA, hrp⟩ := h1
        obtain ⟨q, hqB, hrq⟩ := h2a
        rw [mem_incidenceRow] at hrp hrq
        obtain ⟨c, hc, hcp⟩ := hrp
        obtain ⟨c2, hc2, hcq⟩ := hrq
        rw [hc] at hc2
        injection hc2 with hcc
        subst hcc
        refine ⟨c, hc, ?_⟩
        rcases hcp with h | h <;> rcases hcq with h2 | h2
        · exact absurd ((h.symm.trans h2) ▸ hqB) (hdisj p hpA)
        · exact Or.inl ⟨h.symm ▸ hpA, h2.symm ▸ hqB⟩
        · exact Or.inr ⟨h.symm ▸ hpA, h2.symm ▸ hqB⟩
        · exact absurd ((h.symm.trans h2) ▸ hqB) (hdisj p hpA)
      · rintro ⟨c, hc, hcase⟩
        rcases hcase with ⟨hA, hB⟩ | ⟨hA, hB⟩
        · refine ⟨mem_neighbor_throats_union.mpr
            ⟨c.1, hA, mem_incidenceRow.mpr ⟨c, hc, Or.inl rfl⟩⟩, ?_⟩
          have : t ∈ (find_neighbor_throats net (poresWithLabel net lb) .union true).toFlat :=
            mem_neighbor_throats_union.mpr
              ⟨c.2, hB, mem_incidenceRow.mpr ⟨c, hc, Or.inr rfl⟩⟩
          simpa using this
        · refine ⟨mem_neighbor_throats_union.mpr
            ⟨c.2, hA, mem_incidenceRow.mpr ⟨c, hc, Or.inr rfl⟩⟩, ?_⟩
          have : t ∈ (find_neighbor_throats net (poresWithLabel net lb) .union true).toFlat :=
            mem_neighbor_throats_union.mpr
              ⟨c.1, hB, mem_incidenceRow.mpr ⟨c, hc, Or.inl rfl⟩⟩
          simpa using this
  · rintro la lb rfl hdisj hemp
    have hov : ¬ (0 < ((poresWithLabel net la).filter
        (fun p => (poresWithLabel net lb).contains p)).length) := by
      have hnil : (poresWithLabel net la).filter
          (fun p => (poresWithLabel net lb).contains p) = [] := by
        rw [List.filter_eq_nil_iff]
        intro p hp
        simpa using hdisj p hp
      rw [hnil]
      simp
    have hall : ((poresWithLabel net la).map (incidenceRow net)).all
        (fun r => r.isEmpty) = true := by
      rw [List.all_eq_true]
      intro r hr
      obtain ⟨p, hp, rfl⟩ := List.mem_map.mp hr
      simp [hemp p hp]
    have hT1 : find_neighbor_throats net (poresWithLabel net la) .union true = .empty := by
      unfold find_neighbor_throats
      simp [hall]
    unfold find_interface_throats
    rw [if_neg (fun h => h rfl)]
    simp only [List.getD_cons_zero, List.getD_cons_succ]
    rw [if_neg hov, hT1]

/-- Witness for C6 (amended): a successful interface query on `lab2Net`. -/
theorem interface_throats_spec_witness :
    find_interface_throats lab2Net ["a", "b"] = some ([0], false) := by
  obtain ⟨res, hres, hchar⟩ :=
    (interface_throats_spec lab2Net ["a", "b"]).2.2.1 "a" "b" rfl (by decide)
      ⟨0, by decide, by decide⟩
  have h0 : 0 ∈ res :=
    (hchar 0).mpr ⟨(0, 1), by decide, Or.inl ⟨by decide, by decide⟩⟩
  have hval : res = [0] := by
    have hv2 : find_interface_throats lab2Net ["a", "b"] = some ([0], false) := by
      decide
    rw [hres] at hv2
    injection hv2 with hv3
    exact congrArg Prod.fst hv3
  rw [hres, hval]

theorem maskSel_range'_map {α : Type} :
    ∀ (l : List α) (s : Nat) (g : Nat → Bool),
      maskSel l ((List.range' s l.length).map g) =
        ((l.enumFrom s).filter (fun ic => g ic.1)).map (fun ic => ic.2)
| [], _, _ => rfl
| a :: l, s, g => by
    have ih := maskSel_range'_map l (s + 1) g
    unfold maskSel at ih ⊢
    rw [show List.range' s (a :: l).length = s :: List.range' (s + 1) l.length from
      List.range'_succ _ _ _]
    show ((((a, g s) :: l.zip ((List.range' (s + 1) l.length).map g)).filter
      (fun p => p.2)).map (fun p => p.1)) =
      (((s, a) :: l.enumFrom (s + 1)).filter (fun ic => g ic.1)).map (fun ic => ic.2)
    simp only [List.filter_cons]
    cases hg : g s
    · simpa [hg] using ih
    · simpa [hg] using congrArg (List.cons a) ih

theorem enumFrom_filter_value {α : Type} (D : α → Bool) :
    ∀ (l : List α) (s : Nat) (g : Nat → Bool),
      (∀ i c, l[i]? = some c → g (s + i) = D c) →
      ((l.enumFrom s).filter (fun ic => g ic.1)).map (fun ic => ic.2) = l.filter D
| [], _, _, _ => rfl
| a :: l, s, g, h => by
    have h0 : g s = D a := by simpa using h 0 a (by simp)
    have h2 : ∀ i c, l[i]? = some c → g (s + 1 + i) = D c := by
      intro i c hc
      have h3 := h (i + 1) c (by simpa using hc)
      rwa [show s + (i + 1) = s + 1 + i by omega] at h3
    have ih := enumFrom_filter_value D l (s + 1) g h2
    show ((((s, a) :: l.enumFrom (s + 1)).filter (fun ic => g ic.1)).map
      (fun ic => ic.2)) = (a :: l).filter D
    simp only [List.filter_cons, h0]
    cases hd : D a
    · simpa [hd] using ih
    · simpa [hd] using congrArg (List.cons a) ih

theorem maskSel_value_pred {α : Type} (D : α → Bool) (l : List α) (s : Nat)
    (g : Nat → Bool) (h : ∀ i c, l[i]? = some c → g (s + i) = D c) :
    maskSel l ((List.range' s l.length).map g) = l.filter D := by
  rw [maskSel_range'_map, enumFrom_filter_value D l s g h]

theorem maskSel_length {α : Type} :
    ∀ (l : List α) (mask : List Bool), mask.length = l.length →
      (maskSel l mask).length = mask.count true
| [], [], _ => rfl
| [], m :: mask, h => by simp at h
| a :: l, [], h => by simp at h
| a :: l, m :: mask, h => by
    have ih := maskSel_length l mask (by simpa using h)
    unfold maskSel at ih ⊢
    simp only [List.zip_cons_cons, List.filter_cons, List.count_cons]
    cases m
    · simpa using ih
    · simpa using ih

theorem buildPmapAux_getD :
    ∀ (mask : List Bool) (k : Int) (p : Nat), p < mask.length →
      (buildPmapAux k mask).getD p (-1) =
        if mask.getD p false then k + ((mask.take p).count true : Int) else -1
| [], _, p, h => by simp at h
| b :: mask, k, 0, _ => by cases b <;> simp [buildPmapAux]
| b :: mask, k, p + 1, h => by
    have hlt : p < mask.length := by simpa using h
    cases b
    · have ih := buildPmapAux_getD mask k p hlt
      simp only [buildPmapAux, List.getD_cons_succ, List.take_succ_cons,
        List.count_cons, ih]
      split
      · simp
      · rfl
    · have ih := buildPmapAux_getD mask (k + 1) p hlt
      simp only [buildPmapAux, List.getD_cons_succ, List.take_succ_cons,
        List.count_cons, ih]
      split
      · simp only [beq_self_eq_true, if_true]
        push_cast
        ring
      · rfl

theorem getD_map_range {β : Type} (n p : Nat) (g : Nat → β) (d : β)
    (h : p < n) : ((List.range n).map g).getD p d = g p := by
  rw [List.getD_eq_getElem?_getD, List.getElem?_map]
  simp [List.getElem?_range, h]

theorem take_map_range {β : Type} (n p : Nat) (g : Nat → β) (h : p ≤ n) :
    ((List.range n).map g).take p = (List.range p).map g := by
  rw [← List.map_take]
  rw [List.take_range]
  rw [Nat.min_eq_left h]

theorem count_true_map {α : Type} (l : List α) (g : α → Bool) :
    ((l.map g).count true) = (l.filter g).length := by
  have h1 : (l.map g).count true = List.countP (fun x => x == true) (l.map g) := rfl
  rw [h1, List.countP_map, List.countP_eq_length_filter]
  congr 1
  apply List.filter_congr
  intro x hx
  simp [Function.comp]

theorem trimCore_Np (net : Network) (pk tk : List Bool) :
    (trimCore net pk tk).Np = pk.count true := by
  simp [trimCore, Network.Np]

theorem trimCore_Nt (net : Network) (pk tk : List Bool) :
    (trimCore net pk tk).Nt = tk.count true := by
  simp [trimCore, Network.Nt]

theorem trimCore_coords (net : Network) (pk tk : List Bool) :
    (trimCore net pk tk).coords = maskSel net.coords pk := rfl

theorem trimCore_conns (net : Network) (pk tk : List Bool) :
    (trimCore net pk tk).conns = (maskSel net.conns tk).map (fun c =>
      (((buildPmap pk).getD c.1 (-1)).toNat, ((buildPmap pk).getD c.2 (-1)).toNat)) := rfl

/-- **C3**: `trim(pores=P)` removes every pore in `P` and every throat
incident to one of them, keeps the surviving pores and throats in their
original relative order with a dense re-index, and rewrites `throat.conns`
through the old-to-new index map (`denseIndex`). -/
theorem trim_pores_spec (net : Network) (P : List Nat) (hv : net.Valid)
    (hne : P ≠ []) (hP : ∀ p ∈ P, p < net.Np) :
    (net.trim P []).1.Np =
      ((List.range net.Np).filter (fun p => !(P.contains p))).length ∧
    (net.trim P []).1.coords =
      (net.coords.enum.filter (fun pc => !(P.contains pc.1))).map (fun pc => pc.2) ∧
    (net.trim P []).1.conns =
      (net.conns.filter (fun c => !(P.contains c.1) && !(P.contains c.2))).map
        (fun c => (denseIndex P c.1, denseIndex P c.2)) ∧
    (net.trim P []).1.Nt =
      (net.conns.filter (fun c => !(P.contains c.1) && !(P.contains c.2))).length := by
  obtain ⟨h1, h2, -, -, hlt, -, -⟩ := valid_unfold hv
  have hdisp : (net.trim P []).1 = net.trimPores P := by
    cases P with
    | nil => exact absurd rfl hne
    | cons p0 Ptl => rfl
  have hpk : (((List.range net.Np).map (fun p => P.contains p)).map not)
      = (List.range net.Np).map (fun p => !(P.contains p)) := by
    rw [List.map_map]
    rfl
  have htk : (((List.range net.Nt).map
        (fun t => ((find_neighbor_throats net P .union true).toFlat.contains t))).map not)
      = (List.range net.Nt).map
        (fun t => !((find_neighbor_throats net P .union true).toFlat.contains t)) := by
    rw [List.map_map]
    rfl
  have hTP : net.trimPores P = trimCore net
      ((List.range net.Np).map (fun p => !(P.contains p)))
      ((List.range net.Nt).map
        (fun t => !((find_neighbor_throats net P .union true).toFlat.contains t))) := by
    unfold Network.trimPores
    show trimCore net (((List.range net.Np).map (fun p => P.contains p)).map not)
      (((List.range net.Nt).map
        (fun t => ((find_neighbor_throats net P .union true).toFlat.contains t))).map not) = _
    rw [hpk, htk]
  have hDT : ∀ i c, net.conns[i]? = some c →
      (!((find_neighbor_throats net P .union true).toFlat.contains i))
        = (!(P.contains c.1) && !(P.contains c.2)) := by
    intro i c hc
    have hmem : i ∈ (find_neighbor_throats net P .union true).toFlat ↔
        (c.1 ∈ P ∨ c.2 ∈ P) := by
      rw [mem_neighbor_throats_union]
      constructor
      · rintro ⟨p, hp, hrow⟩
        rw [mem_incidenceRow] at hrow
        obtain ⟨c2, hc2, hor⟩ := hrow
        rw [hc] at hc2
        injection hc2 with he
        subst he
        rcases hor with he | he
        · exact Or.inl (by rw [he]; exact hp)
        · exact Or.inr (by rw [he]; exact hp)
      · rintro (h | h)
        · exact ⟨c.1, h, mem_incidenceRow.mpr ⟨c, hc, Or.inl rfl⟩⟩
        · exact ⟨c.2, h, mem_incidenceRow.mpr ⟨c, hc, Or.inr rfl⟩⟩
    rw [Bool.eq_iff_iff]
    simp [hmem, not_or]
  have hkept : maskSel net.conns ((List.range net.Nt).map
      (fun t => !((find_neighbor_throats net P .union true).toFlat.contains t)))
      = net.conns.filter (fun c => !(P.contains c.1) && !(P.contains c.2)) := by
    have hlen : (List.range net.Nt) = List.range' 0 net.conns.length := by
      rw [h2, List.range_eq_range']
    rw [hlen]
    exact maskSel_value_pred _ net.conns 0 _ (fun i c hc => by simpa using hDT i c hc)
  have hpmap : ∀ q, q < net.Np → ¬ q ∈ P →
      (((buildPmap ((List.range net.Np).map (fun p => !(P.contains p)))).getD q
        (-1)).toNat) = denseIndex P q := by
    intro q hq hqP
    have hqlen : q < ((List.range net.Np).map (fun p => !(P.contains p))).length := by
      simpa using hq
    rw [buildPmap, buildPmapAux_getD _ 0 q hqlen]
    rw [getD_map_range _ _ _ _ hq]
    have hqc : (P.contains q) = false := by simpa using hqP
    rw [hqc]
    simp only [Bool.not_false, if_true]
    rw [take_map_range _ _ _ (Nat.le_of_lt hq), count_true_map]
    simp [denseIndex]
  rw [hdisp, hTP]
  refine ⟨?_, ?_, ?_, ?_⟩
  · rw [trimCore_Np, count_true_map]
  · rw [trimCore_coords]
    have hl : (List.range net.Np) = List.range' 0 net.coords.length := by
      rw [h1, List.range_eq_range']
    rw [hl, maskSel_range'_map]
    rfl
  · rw [trimCore_conns, hkept]
    apply List.map_congr_left
    intro c hcmem
    rw [List.mem_filter] at hcmem
    obtain ⟨hcin, hcD⟩ := hcmem
    simp only [Bool.and_eq_true, Bool.not_eq_true'] at hcD
    have hc1 : ¬ c.1 ∈ P := by simpa using hcD.1
    have hc2 : ¬ c.2 ∈ P := by simpa using hcD.2
    obtain ⟨hb1, hb2⟩ := hlt c hcin
    rw [hpmap c.1 hb1 hc1, hpmap c.2 hb2 hc2]
  · have hml : ((List.range net.Nt).map
        (fun t => !((find_neighbor_throats net P .union true).toFlat.contains t))).length
        = net.conns.length := by
      simp [h2]
    rw [trimCore_Nt, ← maskSel_length net.conns _ hml, hkept]

theorem maskSel_append {α : Type} (l1 l2 : List α) (m1 m2 : List Bool)
    (h : l1.length = m1.length) :
    maskSel (l1 ++ l2) (m1 ++ m2) = maskSel l1 m1 ++ maskSel l2 m2 := by
  unfold maskSel
  rw [List.zip_append h, List.filter_append, List.map_append]

theorem maskSel_replicate_true {α : Type} :
    ∀ l : List α, maskSel l (List.replicate l.length true) = l
| [] => rfl
| a :: l => by
    have ih := maskSel_replicate_true l
    unfold maskSel at ih ⊢
    show (((a, true) :: l.zip (List.replicate l.length true)).filter
      (fun p => p.2)).map (fun p => p.1) = a :: l
    simp only [List.filter_cons]
    simpa using congrArg (List.cons a) ih

theorem maskSel_replicate_false {α : Type} :
    ∀ (l : List α) (n : Nat), maskSel l (List.replicate n false) = []
| [], _ => rfl
| _ :: _, 0 => rfl
| a :: l, n + 1 => by
    have ih := maskSel_replicate_false l n
    unfold maskSel at ih ⊢
    show (((a, false) :: l.zip (List.replicate n false)).filter
      (fun p => p.2)).map (fun p => p.1) = []
    simpa using ih

theorem range_map_not_contains_range' (a b : Nat) :
    (List.range (a + b)).map (fun t => !((List.range' a b).contains t)) =
      List.replicate a true ++ List.replicate b false := by
  rw [List.range_add, List.map_append, List.map_map]
  congr 1
  · rw [List.eq_replicate_iff]
    refine ⟨by simp, ?_⟩
    intro x hx
    obtain ⟨t, ht, rfl⟩ := List.mem_map.mp hx
    have hta : t < a := List.mem_range.mp ht
    simp [List.mem_range'_1]
    omega
  · rw [List.eq_replicate_iff]
    refine ⟨by simp, ?_⟩
    intro x hx
    obtain ⟨t, ht, rfl⟩ := List.mem_map.mp hx
    have htb : t < b := List.mem_range.mp ht
    simp [Function.comp, List.mem_range'_1]
    omega

theorem getD_replicate_lt {α : Type} (n i : Nat) (a d : α) (h : i < n) :
    (List.replicate n a).getD i d = a := by
  rw [List.getD_eq_getElem?_getD]
  simp [List.getElem?_replicate, h]

theorem buildPmap_prefix_getD (a b q : Nat) (h : q < a) :
    (buildPmap (List.replicate a true ++ List.replicate b false)).getD q (-1)
      = (q : Int) := by
  have hlen : q < (List.replicate a true ++ List.replicate b false).length := by
    simp
    omega
  rw [buildPmap, buildPmapAux_getD _ 0 q hlen]
  rw [List.getD_append _ _ _ _ (by simpa using h)]
  rw [getD_replicate_lt _ _ _ _ h]
  simp only [if_true]
  rw [List.take_append_of_le_length (by simpa using Nat.le_of_lt h)]
  rw [List.take_replicate, Nat.min_eq_left (Nat.le_of_lt h)]
  simp

theorem buildPmap_replicate_getD (a q : Nat) (h : q < a) :
    (buildPmap (List.replicate a true)).getD q (-1) = (q : Int) := by
  have hb := buildPmap_prefix_getD a 0 q h
  simpa using hb

theorem PVal.floatified_plen (v : PVal) : v.floatified.plen = v.plen := by
  cases v <;> simp [PVal.floatified, PVal.plen]

theorem PVal.sel_all_true (v : PVal) : v.sel (List.replicate v.plen true) = v := by
  cases v <;> simp [PVal.sel, PVal.plen, maskSel_replicate_true]

theorem pval_sel_len_all_true (v : PVal) (n : Nat) (h : v.plen = n) :
    v.sel (List.replicate n true) = v := by
  rw [← h]
  exact PVal.sel_all_true v

theorem growProp_plen_self (v : PVal) : growProp v v.plen = v.floatified := by
  cases v <;> simp [growProp, PVal.floatified, PVal.plen]

theorem growProp_sel_split (v : PVal) (n m : Nat) (h : v.plen = n) :
    (growProp v (n + m)).sel (List.replicate n true ++ List.replicate m false)
      = v.floatified := by
  cases v with
  | bools l =>
    have hlen : l.length = n := h
    simp only [growProp, PVal.sel, PVal.floatified]
    rw [show n + m - l.length = m by omega]
    rw [maskSel_append l _ _ _ (by simp [hlen])]
    rw [show List.replicate n true = List.replicate l.length true by rw [hlen]]
    rw [maskSel_replicate_true, maskSel_replicate_false]
    simp
  | ints l =>
    have hlen : l.length = n := h
    simp only [growProp, PVal.sel, PVal.floatified]
    rw [show n + m - l.length = m by omega]
    rw [maskSel_append (l.map (fun (z : Int) => some (z : ℚ)))
      (List.replicate m none) (List.replicate n true) (List.replicate m false)
      (by simp [hlen])]
    rw [show List.replicate n true =
      List.replicate (l.map (fun (z : Int) => some (z : ℚ))).length true by simp [hlen]]
    rw [maskSel_replicate_true, maskSel_replicate_false]
    simp
  | floats l =>
    have hlen : l.length = n := h
    simp only [growProp, PVal.sel, PVal.floatified]
    rw [show n + m - l.length = m by omega]
    rw [maskSel_append l (List.replicate m none) (List.replicate n true)
      (List.replicate m false) (by simp [hlen])]
    rw [show List.replicate n true = List.replicate l.length true by rw [hlen]]
    rw [maskSel_replicate_true, maskSel_replicate_false]
    simp

theorem incidenceRow_eq_nil {net : Network} {p : Nat}
    (h : ∀ c ∈ net.conns, c.1 ≠ p ∧ c.2 ≠ p) : incidenceRow net p = [] := by
  unfold incidenceRow
  have hnil : net.conns.enum.filter (fun tc => tc.2.1 == p || tc.2.2 == p) = [] := by
    rw [List.filter_eq_nil_iff]
    rintro ⟨i, c⟩ hm
    have hc : c ∈ net.conns := by
      have h2 := List.mk_mem_enum_iff_getElem?.mp hm
      obtain ⟨hlt2, hg⟩ := List.getElem?_eq_some_iff.mp h2
      exact hg ▸ net.conns.getElem_mem hlt2
    have h3 := h c hc
    simp [h3.1, h3.2]
  rw [hnil]
  rfl

theorem extend_coords (net : Network) (pc : List (ℚ × ℚ × ℚ))
    (tc : List (Nat × Nat)) : (net.extend pc tc).coords = net.coords ++ pc := by
  cases pc <;> simp [Network.extend]

theorem extend_conns (net : Network) (pc : List (ℚ × ℚ × ℚ))
    (tc : List (Nat × Nat)) : (net.extend pc tc).conns = net.conns ++ tc := by
  cases tc <;> simp [Network.extend]

/-- Witness for C3: the spec scenario `trim(pores=[1])` on the 4-pore path
network gives `Np = 3`, `Nt = 1` and the single surviving throat, formerly
`(2, 3)`, re-indexed to `(1, 2)`. -/
theorem trim_pores_spec_witness :
    pathNet.Valid ∧
      (pathNet.trim [1] []).1.Np = 3 ∧
      (pathNet.trim [1] []).1.conns = [(1, 2)] ∧
      (pathNet.trim [1] []).1.Nt = 1 := by
  have h := trim_pores_spec pathNet [1] (by decide) (by decide) (by decide)
  refine ⟨by decide, ?_, ?_, ?_⟩
  · rw [h.1]
    decide
  · rw [h.2.2.1]
    decide
  · rw [h.2.2.2]
    decide

theorem network_eq_of_fields {n1 n2 : Network} (hc : n1.coords = n2.coords)
    (hco : n1.conns = n2.conns) (hpa : n1.poreAll = n2.poreAll)
    (hta : n1.throatAll = n2.throatAll) (hpr : n1.props = n2.props) :
    n1 = n2 := by
  cases n1
  cases n2
  congr 1

theorem trimCore_poreAll (net : Network) (pk tk : List Bool) :
    (trimCore net pk tk).poreAll = List.replicate (pk.count true) true := rfl

theorem trimCore_throatAll (net : Network) (pk tk : List Bool) :
    (trimCore net pk tk).throatAll = List.replicate (tk.count true) true := rfl

theorem trimCore_props (net : Network) (pk tk : List Bool) :
    (trimCore net pk tk).props = net.props.map (fun kv =>
      if kv.1.2 == "conns" || kv.1.2 == "all" then kv
      else match kv.1.1 with
        | .pore => (kv.1, kv.2.sel pk)
        | .throat => (kv.1, kv.2.sel tk)) := rfl

theorem growProp_plen (v : PVal) (n : Nat) (h : v.plen ≤ n) :
    (growProp v n).plen = n := by
  cases v <;> simp [growProp, PVal.plen] <;> simp [PVal.plen] at h <;> omega

theorem toNat_natCast_int (q : Nat) : ((q : Int)).toNat = q := rfl

/-- After `extend`, trimming exactly the added throat indices restores the
original throat count and connections, leaves the added pores in place, and
leaves every (non-reserved-named) property grown on the pore side but back at
its original throat length — integer throat arrays now float-typed. -/
theorem trim_added_throats (net : Network) (pc : List (ℚ × ℚ × ℚ))
    (tc : List (Nat × Nat)) (hv : net.Valid)
    (hnames : ∀ kv ∈ net.props,
      kv.1.2 ≠ "coords" ∧ kv.1.2 ≠ "conns" ∧ kv.1.2 ≠ "all") :
    ((net.extend pc tc).trim [] (List.range' net.Nt tc.length)).1 =
      { coords := net.coords ++ pc
        conns := net.conns
        poreAll := List.replicate (net.Np + pc.length) true
        throatAll := List.replicate net.Nt true
        props := extendProps net.props (net.Np + pc.length) net.Nt } := by
  obtain ⟨h1, h2, h3, h4, hlt, hplen, -⟩ := valid_unfold hv
  by_cases htc : tc = []
  · subst htc
    show net.extend pc [] = _
    refine network_eq_of_fields ?_ ?_ ?_ ?_ ?_
    · rw [extend_coords]
    · rw [extend_conns, List.append_nil]
    · rfl
    · rfl
    · rfl
  · obtain ⟨a0, tl, rfl⟩ := List.exists_cons_of_ne_nil htc
    have hdisp : ((net.extend pc (a0 :: tl)).trim []
        (List.range' net.Nt (a0 :: tl).length)).1
        = (net.extend pc (a0 :: tl)).trimThroats
            (List.range' net.Nt (a0 :: tl).length) := by
      rw [show List.range' net.Nt (a0 :: tl).length =
        net.Nt :: List.range' (net.Nt + 1) tl.length from List.range'_succ _ _ _]
      rfl
    rw [hdisp]
    have hNp1 : (net.extend pc (a0 :: tl)).Np = net.Np + pc.length := by
      simp [Network.extend, Network.Np]
    have hNt1 : (net.extend pc (a0 :: tl)).Nt = net.Nt + (a0 :: tl).length := by
      simp [Network.extend, Network.Nt]
    have hTT : (net.extend pc (a0 :: tl)).trimThroats
        (List.range' net.Nt (a0 :: tl).length) =
        trimCore (net.extend pc (a0 :: tl))
          (List.replicate (net.Np + pc.length) true)
          (List.replicate net.Nt true ++ List.replicate (a0 :: tl).length false) := by
      show trimCore (net.extend pc (a0 :: tl))
        ((List.range (net.extend pc (a0 :: tl)).Np).map (fun _ => true))
        (((List.range (net.extend pc (a0 :: tl)).Nt).map
          (fun t => (List.range' net.Nt (a0 :: tl).length).contains t)).map not) = _
      rw [hNp1, hNt1, List.map_const', List.length_range, List.map_map]
      rw [show (not ∘ fun t => (List.range' net.Nt (a0 :: tl).length).contains t)
        = (fun t => !((List.range' net.Nt (a0 :: tl).length).contains t)) from rfl]
      rw [range_map_not_contains_range']
    rw [hTT]
    refine network_eq_of_fields ?_ ?_ ?_ ?_ ?_
    · rw [trimCore_coords, extend_coords]
      rw [show List.replicate (net.Np + pc.length) true =
        List.replicate (net.coords ++ pc).length true by
          rw [List.length_append, h1]]
      exact maskSel_replicate_true _
    · rw [trimCore_conns, extend_conns]
      rw [maskSel_append net.conns (a0 :: tl) _ _ (by rw [h2]; simp)]
      rw [show List.replicate net.Nt true = List.replicate net.conns.length true by
        rw [h2]]
      rw [maskSel_replicate_true, maskSel_replicate_false, List.append_nil]
      have hpt : ∀ c ∈ net.conns,
          ((((buildPmap (List.replicate (net.Np + pc.length) true)).getD c.1
            (-1)).toNat),
           (((buildPmap (List.replicate (net.Np + pc.length) true)).getD c.2
            (-1)).toNat)) = c := by
        intro c hc
        obtain ⟨hb1, hb2⟩ := hlt c hc
        rw [buildPmap_replicate_getD _ _ (by omega),
          buildPmap_replicate_getD _ _ (by omega)]
        rfl
      rw [List.map_congr_left hpt]
      exact List.map_id _
    · rw [trimCore_poreAll]
      simp
    · rw [trimCore_throatAll]
      simp [List.count_replicate]
    · rw [trimCore_props]
      show (extendProps net.props (net.Np + pc.length)
        (net.Nt + (a0 :: tl).length)).map _ = _
      unfold extendProps
      rw [List.map_map]
      apply List.map_congr_left
      intro kv hkv
      obtain ⟨hn1, hn2, hn3⟩ := hnames kv hkv
      have hres : (kv.1.2 == "coords" || kv.1.2 == "conns" || kv.1.2 == "all")
          = false := by simp [hn1, hn2, hn3]
      have hpl := hplen kv hkv
      have hres2 : (kv.1.2 == "conns" || kv.1.2 == "all") = false := by
        simp [hn2, hn3]
      simp only [Function.comp, hres, Bool.false_eq_true, if_false]
      cases hk : kv.1.1 with
      | pore =>
        simp only [hres, hres2, Bool.false_eq_true, if_false, hk]
        rw [pval_sel_len_all_true _ _
          (growProp_plen _ _ (by rw [hpl.1 hk]; omega))]
      | throat =>
        simp only [hres, hres2, Bool.false_eq_true, if_false, hk]
        rw [growProp_sel_split _ _ _ (hpl.2 hk)]
        rw [show growProp kv.2 net.Nt = growProp kv.2 kv.2.plen by rw [hpl.2 hk]]
        rw [growProp_plen_self]

theorem extendProps_at_lengths (props : List ((Elem × String) × PVal))
    (np nt : Nat)
    (hnames : ∀ kv ∈ props, kv.1.2 ≠ "coords" ∧ kv.1.2 ≠ "conns" ∧ kv.1.2 ≠ "all")
    (hplen : ∀ kv ∈ props, (kv.1.1 = Elem.pore → kv.2.plen = np) ∧
      (kv.1.1 = Elem.throat → kv.2.plen = nt)) :
    extendProps props np nt = props.map (fun kv => (kv.1, kv.2.floatified)) := by
  unfold extendProps
  apply List.map_congr_left
  intro kv hkv
  obtain ⟨hn1, hn2, hn3⟩ := hnames kv hkv
  have hres : (kv.1.2 == "coords" || kv.1.2 == "conns" || kv.1.2 == "all")
      = false := by simp [hn1, hn2, hn3]
  simp only [hres, Bool.false_eq_true, if_false]
  have hpl := hplen kv hkv
  cases hk : kv.1.1 with
  | pore =>
    rw [show growProp kv.2 np = growProp kv.2 kv.2.plen by rw [hpl.1 hk]]
    rw [growProp_plen_self]
  | throat =>
    rw [show growProp kv.2 nt = growProp kv.2 kv.2.plen by rw [hpl.2 hk]]
    rw [growProp_plen_self]

/-- Trimming exactly the added pore indices from the intermediate state of the
round trip removes them (by then they are isolated), restoring the pore-side
arrays; every non-boolean property comes back float-typed. -/
theorem trim_added_pores (net : Network) (pc : List (ℚ × ℚ × ℚ)) (hv : net.Valid)
    (hnames : ∀ kv ∈ net.props,
      kv.1.2 ≠ "coords" ∧ kv.1.2 ≠ "conns" ∧ kv.1.2 ≠ "all") :
    (({ coords := net.coords ++ pc
        conns := net.conns
        poreAll := List.replicate (net.Np + pc.length) true
        throatAll := List.replicate net.Nt true
        props := extendProps net.props (net.Np + pc.length) net.Nt } : Network).trim
      (List.range' net.Np pc.length) []).1 =
      { coords := net.coords
        conns := net.conns
        poreAll := List.replicate net.Np true
        throatAll := List.replicate net.Nt true
        props := net.props.map (fun kv => (kv.1, kv.2.floatified)) } := by
  obtain ⟨h1, h2, h3, h4, hlt, hplen, -⟩ := valid_unfold hv
  by_cases hpc : pc = []
  · subst hpc
    refine network_eq_of_fields ?_ ?_ ?_ ?_ ?_
    · show net.coords ++ [] = net.coords
      rw [List.append_nil]
    · rfl
    · rfl
    · rfl
    · show extendProps net.props (net.Np + 0) net.Nt = _
      refine extendProps_at_lengths _ _ _ hnames ?_
      intro kv hkv
      have hpl := hplen kv hkv
      constructor
      · intro hk
        rw [hpl.1 hk]
        omega
      · exact hpl.2
  · obtain ⟨c0, cl, rfl⟩ := List.exists_cons_of_ne_nil hpc
    obtain ⟨M, hM⟩ : ∃ M : Network, M =
        { coords := net.coords ++ (c0 :: cl)
          conns := net.conns
          poreAll := List.replicate (net.Np + (c0 :: cl).length) true
          throatAll := List.replicate net.Nt true
          props := extendProps net.props (net.Np + (c0 :: cl).length) net.Nt } :=
      ⟨_, rfl⟩
    rw [← hM]
    have hMco : M.coords = net.coords ++ (c0 :: cl) := by rw [hM]
    have hMcn : M.conns = net.conns := by rw [hM]
    have hMNp : M.Np = net.Np + (c0 :: cl).length := by
      rw [hM]
      show (List.replicate (net.Np + (c0 :: cl).length) true).length = _
      rw [List.length_replicate]
    have hMNt : M.Nt = net.Nt := by
      rw [hM]
      show (List.replicate net.Nt true).length = _
      rw [List.length_replicate]
    have hMpr : M.props = extendProps net.props (net.Np + (c0 :: cl).length) net.Nt := by
      rw [hM]
    have hdisp : (M.trim (List.range' net.Np (c0 :: cl).length) []).1
        = M.trimPores (List.range' net.Np (c0 :: cl).length) := by
      rw [show List.range' net.Np (c0 :: cl).length =
        net.Np :: List.range' (net.Np + 1) cl.length from List.range'_succ _ _ _]
      rfl
    rw [hdisp]
    have hts : find_neighbor_throats M (List.range' net.Np (c0 :: cl).length)
        .union true = .empty := by
      have hall : ((List.range' net.Np (c0 :: cl).length).map (incidenceRow M)).all
          (fun r => r.isEmpty) = true := by
        rw [List.all_eq_true]
        rintro r hr
        obtain ⟨p, hp, rfl⟩ := List.mem_map.mp hr
        have hpge : net.Np ≤ p := (List.mem_range'_1.mp hp).1
        rw [incidenceRow_eq_nil]
        · rfl
        · intro c hc
          rw [hMcn] at hc
          have hb := hlt c hc
          omega
      unfold find_neighbor_throats
      simp only [hall]
      rfl
    have hTP : M.trimPores (List.range' net.Np (c0 :: cl).length) =
        trimCore M
          (List.replicate net.Np true ++ List.replicate (c0 :: cl).length false)
          (List.replicate net.Nt true) := by
      show trimCore M
        (((List.range M.Np).map
          (fun p => (List.range' net.Np (c0 :: cl).length).contains p)).map not)
        (((List.range M.Nt).map (fun t =>
          ((find_neighbor_throats M (List.range' net.Np (c0 :: cl).length)
            .union true).toFlat.contains t))).map not) = _
      rw [hts, hMNp, hMNt, List.map_map, List.map_map]
      rw [show (not ∘ fun p => (List.range' net.Np (c0 :: cl).length).contains p)
        = (fun p => !((List.range' net.Np (c0 :: cl).length).contains p)) from rfl]
      rw [range_map_not_contains_range']
      rw [show (not ∘ fun t => ((QRes.empty).toFlat.contains t))
        = (fun _ : Nat => true) from rfl]
      rw [List.map_const', List.length_range]
    rw [hTP]
    refine network_eq_of_fields ?_ ?_ ?_ ?_ ?_
    · rw [trimCore_coords, hMco]
      rw [maskSel_append net.coords (c0 :: cl) _ _ (by rw [h1]; simp)]
      rw [show List.replicate net.Np true = List.replicate net.coords.length true by
        rw [h1]]
      rw [maskSel_replicate_true, maskSel_replicate_false, List.append_nil]
    · rw [trimCore_conns, hMcn]
      rw [show List.replicate net.Nt true = List.replicate net.conns.length true by
        rw [h2]]
      rw [maskSel_replicate_true]
      have hpt : ∀ c ∈ net.conns,
          ((((buildPmap (List.replicate net.Np true ++
            List.replicate (c0 :: cl).length false)).getD c.1 (-1)).toNat),
           (((buildPmap (List.replicate net.Np true ++
            List.replicate (c0 :: cl).length false)).getD c.2 (-1)).toNat)) = c := by
        intro c hc
        obtain ⟨hb1, hb2⟩ := hlt c hc
        rw [buildPmap_prefix_getD _ _ _ hb1, buildPmap_prefix_getD _ _ _ hb2]
        rfl
      rw [List.map_congr_left hpt]
      exact List.map_id _
    · rw [trimCore_poreAll]
      simp [List.count_replicate]
    · rw [trimCore_throatAll]
      simp
    · rw [trimCore_props, hMpr]
      show (extendProps net.props (net.Np + (c0 :: cl).length) net.Nt).map _ = _
      unfold extendProps
      rw [List.map_map]
      apply List.map_congr_left
      intro kv hkv
      obtain ⟨hn1, hn2, hn3⟩ := hnames kv hkv
      have hres : (kv.1.2 == "coords" || kv.1.2 == "conns" || kv.1.2 == "all")
          = false := by simp [hn1, hn2, hn3]
      have hres2 : (kv.1.2 == "conns" || kv.1.2 == "all") = false := by
        simp [hn2, hn3]
      have hpl := hplen kv hkv
      simp only [Function.comp, hres, hres2, Bool.false_eq_true, if_false]
      cases hk : kv.1.1 with
      | pore =>
        simp only [hres2, Bool.false_eq_true, if_false, hk]
        rw [growProp_sel_split _ _ _ (hpl.1 hk)]
      | throat =>
        simp only [hres2, Bool.false_eq_true, if_false, hk]
        rw [show growProp kv.2 net.Nt = growProp kv.2 kv.2.plen by rw [hpl.2 hk]]
        rw [growProp_plen_self]
        rw [pval_sel_len_all_true _ _ (by rw [PVal.floatified_plen, hpl.2 hk])]

/-- **C4**: `extend` is *not* all-or-nothing.  It rewrites `pore.all` and
`throat.all` to the new counts before validating the shape of its inputs; on
the mis-shaped `throat_conns` input `[[0], [1], [2]]` (numpy size 3, so
`Nt` grows by `int(3/2) = 1`) the `vstack` onto the 2-column `throat.conns`
raises, leaving a state whose `throat.all` is one longer than `throat.conns`
— an observable partial mutation. -/
theorem extend_partial_mutation_on_bad_input :
    ∃ bad : Network, twoPoreNet.extendRaw [] [[0], [1], [2]] = Except.error bad ∧
      bad.Nt = twoPoreNet.Nt + 1 ∧
      bad.conns = twoPoreNet.conns ∧
      bad ≠ twoPoreNet := by
  refine ⟨_, rfl, ?_, ?_, ?_⟩ <;> decide

/-- **C2** (amended): `extend` followed by `trim` removing exactly the added
elements (the added throat indices, then the added pore indices, which are by
then isolated) restores `Np`, `Nt`, `pore.coords`, `throat.conns` and the
`all` labels bit-for-bit, and restores every other property array up to
element type: boolean and float arrays come back bit-for-bit, while
integer-typed arrays come back as float-typed arrays holding the same values
(`PVal.floatified`) — `extend` rebuilds every non-boolean array as floats, so
the element type is not restored.  Properties re-using the reserved
`coords`/`conns`/`all` name parts are excluded (see C8). -/
theorem extend_trim_roundtrip (net : Network) (pc : List (ℚ × ℚ × ℚ))
    (tc : List (Nat × Nat)) (hv : net.Valid)
    (hnames : ∀ kv ∈ net.props,
      kv.1.2 ≠ "coords" ∧ kv.1.2 ≠ "conns" ∧ kv.1.2 ≠ "all") :
    (extendTrimRoundTrip net pc tc).Np = net.Np ∧
    (extendTrimRoundTrip net pc tc).Nt = net.Nt ∧
    (extendTrimRoundTrip net pc tc).coords = net.coords ∧
    (extendTrimRoundTrip net pc tc).conns = net.conns ∧
    (extendTrimRoundTrip net pc tc).poreAll = net.poreAll ∧
    (extendTrimRoundTrip net pc tc).throatAll = net.throatAll ∧
    ∀ k, plookup k (extendTrimRoundTrip net pc tc).props =
      (plookup k net.props).map PVal.floatified := by
  obtain ⟨-, -, h3, h4, -, -, -⟩ := valid_unfold hv
  have hstep : extendTrimRoundTrip net pc tc =
      { coords := net.coords
        conns := net.conns
        poreAll := List.replicate net.Np true
        throatAll := List.replicate net.Nt true
        props := net.props.map (fun kv => (kv.1, kv.2.floatified)) } := by
    show ((((net.extend pc tc).trim [] (List.range' net.Nt tc.length)).1).trim
      (List.range' net.Np pc.length) []).1 = _
    rw [trim_added_throats net pc tc hv hnames]
    exact trim_added_pores net pc hv hnames
  rw [hstep]
  refine ⟨?_, ?_, rfl, rfl, h3.symm, h4.symm, ?_⟩
  · show (List.replicate net.Np true).length = net.Np
    rw [List.length_replicate]
  · show (List.replicate net.Nt true).length = net.Nt
    rw [List.length_replicate]
  · intro k
    show plookup k (net.props.map (fun kv => (kv.1, kv.2.floatified))) = _
    rw [plookup_map_keyPreserving (fun kv => kv.2.floatified)]
    unfold plookup
    rw [Option.map_map]
    rfl

/-- Witness for C2 (amended) on `intPropNet` with one added pore. -/
theorem extend_trim_roundtrip_witness :
    intPropNet.Valid ∧
      (extendTrimRoundTrip intPropNet [(1, 1, 1)] []).Np = intPropNet.Np ∧
      plookup (Elem.pore, "z")
        (extendTrimRoundTrip intPropNet [(1, 1, 1)] []).props =
        (plookup (Elem.pore, "z") intPropNet.props).map PVal.floatified := by
  have h := extend_trim_roundtrip intPropNet [(1, 1, 1)] [] (by decide) (by decide)
  exact ⟨by decide, h.1, h.2.2.2.2.2.2 (Elem.pore, "z")⟩

/-- **C2** counterexample: on a network carrying an integer-typed property,
`extend` followed by `trim` removing exactly the added elements returns the
property as a float-typed array — the values survive but the element type
does not, so the restoration is not bit-for-bit. -/
theorem extend_trim_roundtrip_dtype_counterexample :
    intPropNet.Valid ∧
      plookup (Elem.pore, "z")
        (extendTrimRoundTrip intPropNet [(1, 1, 1)] []).props =
        some (PVal.floats [some 5]) ∧
      plookup (Elem.pore, "z") intPropNet.props = some (PVal.ints [5]) ∧
      (PVal.floats [some 5] : PVal) ≠ PVal.ints [5] := by
  refine ⟨by decide, by decide, by decide, by decide⟩

end OpenPNM
